import Mathlib

/-!
Verification of the Unified Python Terminal (src/terminal.py) command
translation and dispatch engine, shallowly embedded in Lean.

Strings are modelled as `List Char` (`Str`).  Python's `str.lower` is
modelled at the ASCII level (the only case the source's fixed pattern
table and command verbs exercise), `str.strip`/`str.split` are modelled
on the standard whitespace characters, and the filesystem is an explicit
map from normalized absolute paths to directory/file entries.
-/

/-- Strings are lists of characters in this development. -/
abbrev Str := List Char

/-- Coerce a Lean string literal to the `List Char` representation. -/
def str (s : String) : Str := s.data

/-- Python `str.isspace` / the `\s` class, restricted to the ASCII
whitespace characters: space (code 32), tab, newline, carriage return,
vertical tab and form feed (codes 9-13). -/
def pyIsSpace (c : Char) : Bool :=
  c.toNat = 32 || (9 ≤ c.toNat && c.toNat ≤ 13)

/-- Python `str.lower`, modelled character-wise on ASCII letters
(`A`..`Z` map to `a`..`z`, everything else is fixed). -/
def pyToLower (c : Char) : Char :=
  if 65 ≤ c.toNat ∧ c.toNat ≤ 90 then Char.ofNat (c.toNat + 32) else c

/-- Model of `str.lower` on a whole string. -/
def lowerL (s : Str) : Str := s.map pyToLower

/-- Python `str.strip()`: drop leading and trailing whitespace. -/
def trimL (s : Str) : Str :=
  ((s.dropWhile pyIsSpace).reverse.dropWhile pyIsSpace).reverse

/-- Worker for `pySplitWs`: `acc` is the current token, reversed. -/
def splitWsGo : Str → Str → List Str
  | [], acc => if acc = [] then [] else [acc.reverse]
  | c :: cs, acc =>
    if pyIsSpace c then
      if acc = [] then splitWsGo cs [] else acc.reverse :: splitWsGo cs []
    else splitWsGo cs (c :: acc)

/-- Python `str.split()` with no separator: split on runs of whitespace,
discarding empty fields. -/
def pySplitWs (s : Str) : List Str := splitWsGo s []

/-- Helper for the single-character splitter: prepend a character to the
first field. -/
def consHead (c : Char) : List Str → List Str
  | [] => [[c]]
  | s :: ss => (c :: s) :: ss

/-- Python `str.split(sep)` for a one-character separator `sep`
(e.g. `line.split(">")` in `cmd_echo`, `path.split('/')` in
`posixpath.normpath`): split at every occurrence, keeping empty fields. -/
def splitChar (sep : Char) : Str → List Str
  | [] => [[]]
  | c :: cs => if c = sep then [] :: splitChar sep cs else consHead c (splitChar sep cs)

/-- Python `line.split(">>")`: split at every non-overlapping occurrence
of `>>`, scanning left to right, keeping empty fields. -/
def splitGtGt : Str → List Str
  | '>' :: '>' :: rest => [] :: splitGtGt rest
  | c :: rest => consHead c (splitGtGt rest)
  | [] => [[]]

/-- Python `sep.join(parts)`. -/
def joinSep (sep : Str) : List Str → Str
  | [] => []
  | [x] => x
  | x :: xs => x ++ sep ++ joinSep sep xs

/-- Python's `sub in s` substring containment test. -/
def isSubstr (pat : Str) : Str → Bool
  | [] => pat.isEmpty
  | c :: cs => pat.isPrefixOf (c :: cs) || isSubstr pat cs

deriving instance DecidableEq for Except

/-- Text before the first occurrence of `sep` (the whole string when
`sep` does not occur): field 0 of a first-occurrence split. -/
def beforeFirst (sep : Str) : Str → Str
  | [] => []
  | c :: cs => if sep.isPrefixOf (c :: cs) then [] else c :: beforeFirst sep cs

/-- Text after the first occurrence of `sep` (empty when `sep` does not
occur). -/
def afterFirst (sep : Str) : Str → Str
  | [] => []
  | c :: cs => if sep.isPrefixOf (c :: cs) then (c :: cs).drop sep.length else afterFirst sep cs

-- quick sanity checks on the string utilities
example : pySplitWs (str "  mv  a b ") = [str "mv", str "a", str "b"] := by decide
example : splitChar '>' (str "a > b > c") = [str "a ", str " b ", str " c"] := by decide
example : splitGtGt (str "a>>>b") = [str "a", str ">b"] := by decide
example : trimL (str "  hi  ") = str "hi" := by decide
example : lowerL (str "README.TXT") = str "readme.txt" := by decide

/-! ### The NLP phrase table (`UnifiedTerminal.nlp_patterns`, terminal.py 47-63)

Each pattern is `re.match`ed (anchored at the start, not the end)
against the lowercased stripped input.  The three pattern shapes are:
a bare literal (`exit`), a literal followed by one `(\S+)` group, and a
literal, a group, the literal `" to "`, and a second group.  A greedy
`(\S+)` captures the maximal run of non-whitespace characters; when a
literal beginning with a space follows the group, backtracking cannot
shorten the run (every shorter candidate is followed by a non-space
character), so matching is deterministic. -/

/-- Model of `re.match` of a bare-literal pattern: the literal must occur at the
start of the input. -/
def m0 (lit cmd : Str) : Bool := lit.isPrefixOf cmd

/-- Model of `re.match` of `lit(\S+)`: the literal at the start, then a maximal
nonempty run of non-whitespace characters (the captured group). -/
def m1 (lit cmd : Str) : Option Str :=
  if lit.isPrefixOf cmd then
    let g := (cmd.drop lit.length).takeWhile (fun c => !pyIsSpace c)
    if g = [] then none else some g
  else none

/-- Model of `re.match` of `lit(\S+) to (\S+)`: literal, group, literal `" to "`,
group. -/
def m2 (lit cmd : Str) : Option (Str × Str) :=
  if lit.isPrefixOf cmd then
    let rest := cmd.drop lit.length
    let g1 := rest.takeWhile (fun c => !pyIsSpace c)
    if g1 = [] then none
    else
      let rest2 := rest.drop g1.length
      if (str " to ").isPrefixOf rest2 then
        let g2 := (rest2.drop 4).takeWhile (fun c => !pyIsSpace c)
        if g2 = [] then none else some (g1, g2)
      else none
  else none

/-- The pattern dictionary of `nlp_patterns`, tried in insertion order;
the first match wins and its template is instantiated with the captured
groups. -/
def tryPatterns (cmd : Str) : Option Str :=
  match m1 (str "create file ") cmd with
  | some g => some (str "touch " ++ g)
  | none =>
  match m1 (str "create folder ") cmd with
  | some g => some (str "mkdir " ++ g)
  | none =>
  match m1 (str "delete file ") cmd with
  | some g => some (str "rm " ++ g)
  | none =>
  match m1 (str "remove file ") cmd with
  | some g => some (str "rm " ++ g)
  | none =>
  match m2 (str "rename file ") cmd with
  | some (g1, g2) => some (str "mv " ++ g1 ++ str " " ++ g2)
  | none =>
  match m2 (str "move ") cmd with
  | some (g1, g2) => some (str "mv " ++ g1 ++ str " " ++ g2)
  | none =>
  match m2 (str "copy ") cmd with
  | some (g1, g2) => some (str "cp " ++ g1 ++ str " " ++ g2)
  | none =>
  match m1 (str "show contents of ") cmd with
  | some g => some (str "cat " ++ g)
  | none =>
  match m1 (str "list directory ") cmd with
  | some g => some (str "ls " ++ g)
  | none =>
  match m1 (str "go to directory ") cmd with
  | some g => some (str "cd " ++ g)
  | none =>
  if m0 (str "current directory") cmd then some (str "pwd")
  else if m0 (str "clear screen") cmd then some (str "clear")
  else if m0 (str "exit") cmd then some (str "exit")
  else if m0 (str "quit") cmd then some (str "quit")
  else if m0 (str "help") cmd then some (str "help")
  else none

/-- Model of `UnifiedTerminal.parse_nlp` (terminal.py 85-92): lowercase and strip
a working copy, try the patterns in order, return the instantiated
template of the first match, or the original input unchanged. -/
def parse_nlp (command : Str) : Str :=
  match tryPatterns (trimL (lowerL command)) with
  | some out => out
  | none => command

-- sanity checks against the source's behavior
example : parse_nlp (str "create file README.TXT") = str "touch readme.txt" := by decide
example : parse_nlp (str "mkdir foo") = str "mkdir foo" := by decide
example : parse_nlp (str "help me") = str "help" := by decide
example : parse_nlp (str "rename file a to b") = str "mv a b" := by decide
example : parse_nlp (str "move a b to c") = str "move a b to c" := by decide
example : parse_nlp (str "echo exit") = str "echo exit" := by decide
example : parse_nlp (str "EXIT now") = str "exit" := by decide

-- the rfl-reducibility experiments needed for the idempotence proof
example : ∀ g : Str, tryPatterns (str "touch " ++ g) = none := fun _ => rfl
example : ∀ g h : Str, tryPatterns (str "mv " ++ g ++ str " " ++ h) = none := fun _ _ => rfl

/-! ### Path normalization (`UnifiedTerminal.normalize_path`, terminal.py 154-155)

`os.path.abspath(os.path.expanduser(path))`, modelled after CPython's
`posixpath`.  The current working directory and the user's home
directory are taken from the explicit terminal state. -/

/-- Strip trailing `/` characters (`str.rstrip('/')`). -/
def rstripSlash (p : Str) : Str := (p.reverse.dropWhile (· = '/')).reverse

/-- Model of `posixpath.expanduser`: a leading `~` (own user) is replaced by the
home directory; a `~user` path names another user, modelled here as
unknown so the path is returned unchanged (CPython's behavior when the
user is not in the password database). -/
def pyExpanduser (home p : Str) : Str :=
  match p with
  | '~' :: rest =>
    let user := rest.takeWhile (· ≠ '/')
    let tail := rest.drop user.length
    if user = [] then
      let uh := rstripSlash home
      if uh ++ tail = [] then str "/" else uh ++ tail
    else p
  | _ => p

/-- Model of `posixpath.join` for two components. -/
def pyJoin (a b : Str) : Str :=
  if b.head? = some '/' then b
  else if a = [] ∨ a.getLast? = some '/' then a ++ b
  else a ++ str "/" ++ b

/-- Model of `posixpath.normpath`: collapse `//`, `.` and `..` components. -/
def pyNormpath (p : Str) : Str :=
  if p = [] then str "." else
  let slashes : Nat :=
    if (str "//").isPrefixOf p ∧ ¬ (str "///").isPrefixOf p then 2
    else if p.head? = some '/' then 1 else 0
  let comps := splitChar '/' p
  let newComps := comps.foldl (fun acc comp =>
      if comp = [] ∨ comp = str "." then acc
      else if comp ≠ str ".." ∨ (slashes = 0 ∧ acc = []) ∨ acc.getLast? = some (str "..") then
        acc ++ [comp]
      else acc.dropLast) []
  let res := List.replicate slashes '/' ++ joinSep (str "/") newComps
  if res = [] then str "." else res

/-- Model of `os.path.abspath`: join with the working directory when relative,
then normalize. -/
def pyAbspath (cwd p : Str) : Str :=
  if p.head? = some '/' then pyNormpath p else pyNormpath (pyJoin cwd p)

/-- Model of `posixpath.dirname`. -/
def dirnameL (p : Str) : Str :=
  let i := (p.reverse.dropWhile (· ≠ '/')).length
  let head := p.take i
  if head ≠ [] ∧ ¬ head.all (· = '/') then rstripSlash head else head

/-- Model of `posixpath.basename`. -/
def basenameL (p : Str) : Str := (p.reverse.takeWhile (· ≠ '/')).reverse

example : pyAbspath (str "/w") (str "b > c") = str "/w/b > c" := by decide
example : pyAbspath (str "/w") (str "/a/../b") = str "/b" := by decide
example : pyAbspath (str "/") (str "out.txt") = str "/out.txt" := by decide
example : pyExpanduser (str "/root") (str "~/x") = str "/root/x" := by decide
example : dirnameL (str "/a/b") = str "/a" := by decide
example : dirnameL (str "/a") = str "/" := by decide
example : basenameL (str "/a/b") = str "b" := by decide

/-! ### Filesystem and terminal state

The host filesystem is modelled as explicit state: a list of existing
directory paths and an association list of file paths to contents, all
keyed by normalized absolute paths.  The terminal state carries the
filesystem, the process working directory (mutated only by `cd`), the
history store (in-memory list plus durable sink contents), the current
wall-clock timestamp string, the `psutil` collaborator data and the
shell-fallback collaborator.  `appends` is a ghost trace recording every
entry ever passed to `save_history`, used to state history-append
properties; no handler writes it. -/

structure FS where
  dirs : List Str
  files : List (Str × Str)

structure St where
  fs : FS
  cwd : Str
  home : Str
  now : Str
  history : List Str
  histFile : Str
  appends : List Str
  psutil : Bool
  cpuSample : List Str
  memTotal : Nat
  memUsed : Nat
  memAvail : Nat
  memPercent : Str
  procs : List (Nat × Str × Str)
  shell : Str → Except Str (Str × Str)

/-- Model of `os.path.isdir`. -/
def isDirF (fs : FS) (p : Str) : Bool := fs.dirs.contains p

/-- Contents of the file at `p`, when a file exists there. -/
def lookupFile (fs : FS) (p : Str) : Option Str :=
  (fs.files.find? (fun e => e.1 == p)).map (·.2)

/-- Model of `os.path.isfile`. -/
def isFileF (fs : FS) (p : Str) : Bool := (lookupFile fs p).isSome

/-- Model of `os.path.exists`. -/
def existsF (fs : FS) (p : Str) : Bool := isDirF fs p || isFileF fs p

/-- Replace (or create) the file at `p` with contents `c`. -/
def setFile (fs : FS) (p c : Str) : FS :=
  { fs with files := (p, c) :: fs.files.filter (fun e => e.1 != p) }

/-- Delete the file at `p`. -/
def delFile (fs : FS) (p : Str) : FS :=
  { fs with files := fs.files.filter (fun e => e.1 != p) }

/-- Delete the directory at `p`. -/
def delDir (fs : FS) (p : Str) : FS :=
  { fs with dirs := fs.dirs.filter (fun d => d != p) }

/-- The entry name of `p` inside directory `d`, if `p` is a direct
child of `d`. -/
def childName (d p : Str) : Option Str :=
  let pref := if d = str "/" then d else d ++ str "/"
  if pref.isPrefixOf p ∧ p ≠ d then
    let name := p.drop pref.length
    if name ≠ [] ∧ ¬ name.contains '/' then some name else none
  else none

/-- Model of `os.listdir d` (unsorted): names of entries directly inside `d`. -/
def childNames (fs : FS) (d : Str) : List Str :=
  (fs.dirs ++ fs.files.map (·.1)).filterMap (childName d)

/-- Lexicographic code-point order on strings, as Python `sorted` uses. -/
def strLt : Str → Str → Bool
  | [], [] => false
  | [], _ :: _ => true
  | _ :: _, [] => false
  | a :: as, b :: bs => if a = b then strLt as bs else a.toNat < b.toNat

/-- Insert into a sorted list. -/
def insSorted (x : Str) : List Str → List Str
  | [] => [x]
  | y :: ys => if strLt x y then x :: y :: ys else y :: insSorted x ys

/-- Python `sorted` on strings. -/
def sortStr (l : List Str) : List Str := l.foldr insSorted []

/-! ### Built-in handlers (terminal.py 157-317)

A handler either returns a textual result with an updated state, or
raises: `Except (Str × St) (Str × St)` carries the Python exception's
description together with the state at the moment it was raised (partial
effects of a multi-argument command persist, as in the source).  The
`execute` dispatcher catches the error case (terminal.py 150-151). -/

abbrev ExecM := Except (Str × St) (Str × St)

/-- Model of `UnifiedTerminal.normalize_path` (terminal.py 154-155). -/
def normalize_path (st : St) (p : Str) : Str :=
  pyAbspath st.cwd (pyExpanduser st.home p)

/-- Model of `open(path, 'w')` / `open(path, 'a')` failure check: opening a
directory raises `IsADirectoryError`, a missing parent directory raises
`FileNotFoundError`; otherwise the open succeeds. -/
def openWriteErr (fs : FS) (path : Str) : Option Str :=
  if isDirF fs path then some (str "[Errno 21] Is a directory: '" ++ path ++ str "'")
  else if ¬ isDirF fs (dirnameL path) then
    some (str "[Errno 2] No such file or directory: '" ++ path ++ str "'")
  else none

/-- Write `content` to `path` (append mode when `app` is true, as
`open(path,'a')`; otherwise truncate, as `open(path,'w')`). -/
def doWrite (st : St) (path content : Str) (app : Bool) : Except (Str × St) St :=
  match openWriteErr st.fs path with
  | some e => .error (e, st)
  | none =>
    let old := if app then (lookupFile st.fs path).getD [] else []
    .ok { st with fs := setFile st.fs path (old ++ content) }

/-- Iterate a per-path action over the argument list, joining the
per-path messages with newlines; the first raised exception aborts the
loop with the effects so far kept (as a Python `for` loop would). -/
def eachPath (f : St → Str → ExecM) : St → List Str → List Str → ExecM
  | st, [], acc => .ok (joinSep (str "\n") acc.reverse, st)
  | st, a :: rest, acc =>
    match f st a with
    | .ok (msg, st') => eachPath f st' rest (msg :: acc)
    | .error e => .error e

/-- Decimal rendering of a natural number. -/
def natToStr (n : Nat) : Str := (Nat.repr n).data

/-- All directory prefixes of a normalized absolute path, shortest
first, excluding the root (worker with fuel). -/
def ancestorsGo : Nat → Str → List Str
  | 0, _ => []
  | n + 1, p =>
    if p = str "/" ∨ p = [] ∨ dirnameL p = p then []
    else ancestorsGo n (dirnameL p) ++ [p]

/-- All directory prefixes of a normalized absolute path (the path
itself included), shortest first. -/
def ancestorsOf (p : Str) : List Str := ancestorsGo p.length p

/-- Model of `UnifiedTerminal.cmd_ls` (terminal.py 157-163); `os.listdir` failures
are caught inside the handler and reported as `ls error:` text. -/
def cmd_ls (st : St) (args : List Str) : ExecM :=
  let path := match args with
    | a :: _ => normalize_path st a
    | [] => st.cwd
  if isDirF st.fs path then
    let entries := sortStr (childNames st.fs path)
    .ok (if entries = [] then str "(empty)" else joinSep (str "\n") entries, st)
  else
    .ok (str "ls error: [Errno 2] No such file or directory: '" ++ path ++ str "'", st)

/-- Model of `UnifiedTerminal.cmd_pwd` (terminal.py 165-166). -/
def cmd_pwd (st : St) : ExecM := .ok (st.cwd, st)

/-- Model of `UnifiedTerminal.cmd_cd` (terminal.py 168-177): existence check,
then directory check, and only then `os.chdir`. -/
def cmd_cd (st : St) (args : List Str) : ExecM :=
  match args with
  | [] => .ok (str "cd: missing argument", st)
  | a :: _ =>
    let path := normalize_path st a
    if ¬ existsF st.fs path then
      .ok (str "cd: '" ++ path ++ str "' does not exist", st)
    else if ¬ isDirF st.fs path then
      .ok (str "cd: '" ++ path ++ str "' is not a directory", st)
    else
      .ok (str "Changed directory to '" ++ path ++ str "'", { st with cwd := path })

/-- One `os.makedirs(path, exist_ok=True)` step of `cmd_mkdir`: raises
`FileExistsError` when a file occupies the path and `NotADirectoryError`
when a file occupies an ancestor; otherwise creates every missing
ancestor. -/
def mkdirOne (st : St) (p0 : Str) : ExecM :=
  let path := normalize_path st p0
  if isFileF st.fs path then
    .error (str "[Errno 17] File exists: '" ++ path ++ str "'", st)
  else if (ancestorsOf path).any (fun a => isFileF st.fs a) then
    .error (str "[Errno 20] Not a directory: '" ++ path ++ str "'", st)
  else
    .ok (str "Directory '" ++ path ++ str "' created successfully",
      { st with fs := { st.fs with
          dirs := st.fs.dirs ++ (ancestorsOf path).filter (fun a => !isDirF st.fs a) } })

/-- Model of `UnifiedTerminal.cmd_mkdir` (terminal.py 179-187). -/
def cmd_mkdir (st : St) (args : List Str) : ExecM :=
  if args = [] then .ok (str "mkdir: missing argument", st)
  else eachPath mkdirOne st args []

/-- One path of `cmd_rmdir`: the `OSError` of a non-empty directory is
caught inside the handler. -/
def rmdirOne (st : St) (p0 : Str) : ExecM :=
  let path := normalize_path st p0
  if isDirF st.fs path then
    if childNames st.fs path = [] then
      .ok (str "Directory '" ++ path ++ str "' removed successfully",
        { st with fs := delDir st.fs path })
    else .ok (str "rmdir: '" ++ path ++ str "' not empty", st)
  else .ok (str "rmdir: '" ++ path ++ str "' not a directory", st)

/-- Model of `UnifiedTerminal.cmd_rmdir` (terminal.py 189-203). -/
def cmd_rmdir (st : St) (args : List Str) : ExecM :=
  if args = [] then .ok (str "rmdir: missing argument", st)
  else eachPath rmdirOne st args []

/-- One path of `cmd_rm`: regular files only; directories are refused. -/
def rmOne (st : St) (p0 : Str) : ExecM :=
  let path := normalize_path st p0
  if isFileF st.fs path then
    .ok (str "File '" ++ path ++ str "' removed successfully",
      { st with fs := delFile st.fs path })
  else if isDirF st.fs path then
    .ok (str "rm: '" ++ path ++ str "' is a directory (use rmdir)", st)
  else .ok (str "rm: '" ++ path ++ str "' not found", st)

/-- Model of `UnifiedTerminal.cmd_rm` (terminal.py 205-218). -/
def cmd_rm (st : St) (args : List Str) : ExecM :=
  if args = [] then .ok (str "rm: missing operand", st)
  else eachPath rmOne st args []

/-- One path of `cmd_touch`: `open(path, 'a').close()`. -/
def touchOne (st : St) (p0 : Str) : ExecM :=
  let path := normalize_path st p0
  match doWrite st path [] true with
  | .ok st' => .ok (str "File '" ++ path ++ str "' created successfully", st')
  | .error e => .error e

/-- Model of `UnifiedTerminal.cmd_touch` (terminal.py 220-228). -/
def cmd_touch (st : St) (args : List Str) : ExecM :=
  if args = [] then .ok (str "touch: missing file operand", st)
  else eachPath touchOne st args []

/-- Rewrite a path under a renamed/copied tree root. -/
def replacePref (old new p : Str) : Str :=
  if p = old then new
  else if (old ++ str "/").isPrefixOf p then new ++ p.drop old.length
  else p

/-- Model of `UnifiedTerminal.cmd_mv` (terminal.py 230-235): `os.rename`, whose
failures (missing source, directory target of a file) propagate to the
dispatcher's catch-all. -/
def cmd_mv (st : St) (args : List Str) : ExecM :=
  match args with
  | a :: b :: _ =>
    let src := normalize_path st a
    let dest := normalize_path st b
    let okMsg := str "'" ++ src ++ str "' renamed/moved to '" ++ dest ++ str "' successfully"
    if isFileF st.fs src then
      if isDirF st.fs dest then
        .error (str "[Errno 21] Is a directory: '" ++ src ++ str "' -> '" ++ dest ++ str "'", st)
      else
        .ok (okMsg, { st with fs := setFile (delFile st.fs src) dest ((lookupFile st.fs src).getD []) })
    else if isDirF st.fs src then
      if existsF st.fs dest then
        .error (str "[Errno 17] File exists: '" ++ src ++ str "' -> '" ++ dest ++ str "'", st)
      else
        .ok (okMsg, { st with fs :=
          { dirs := st.fs.dirs.map (replacePref src dest),
            files := st.fs.files.map (fun e => (replacePref src dest e.1, e.2)) } })
    else
      .error (str "[Errno 2] No such file or directory: '" ++ src ++ str "' -> '" ++ dest ++ str "'", st)
  | _ => .ok (str "mv: missing source/destination", st)

/-- Model of `UnifiedTerminal.cmd_cp` (terminal.py 237-247): `shutil.copytree`
for directories (fails if the destination exists), `shutil.copy2`
otherwise (copying into a directory targets `dest/basename(src)`). -/
def cmd_cp (st : St) (args : List Str) : ExecM :=
  match args with
  | a :: b :: _ =>
    let src := normalize_path st a
    let dest := normalize_path st b
    if isDirF st.fs src then
      if existsF st.fs dest then
        .error (str "[Errno 17] File exists: '" ++ dest ++ str "'", st)
      else
        .ok (str "Directory '" ++ src ++ str "' copied to '" ++ dest ++ str "' successfully",
          { st with fs :=
            { dirs := st.fs.dirs ++
                (st.fs.dirs.filter (fun d => replacePref src dest d != d)).map (replacePref src dest),
              files := st.fs.files ++
                (st.fs.files.filter (fun e => replacePref src dest e.1 != e.1)).map
                  (fun e => (replacePref src dest e.1, e.2)) } })
    else
      match lookupFile st.fs src with
      | none =>
        .error (str "[Errno 2] No such file or directory: '" ++ src ++ str "'", st)
      | some content =>
        let target := if isDirF st.fs dest then dest ++ str "/" ++ basenameL src else dest
        match doWrite st target content false with
        | .ok st' =>
          .ok (str "File '" ++ src ++ str "' copied to '" ++ dest ++ str "' successfully", st')
        | .error e => .error e
  | _ => .ok (str "cp: missing source/destination", st)

/-- One path of `cmd_cat`: a missing file is reported inline, the batch
is not aborted. -/
def catOne (st : St) (p0 : Str) : ExecM :=
  let path := normalize_path st p0
  match lookupFile st.fs path with
  | some content => .ok (content, st)
  | none => .ok (str "cat: '" ++ path ++ str "' not found", st)

/-- Model of `UnifiedTerminal.cmd_cat` (terminal.py 249-260). -/
def cmd_cat (st : St) (args : List Str) : ExecM :=
  if args = [] then .ok (str "cat: missing file operand", st)
  else eachPath catOne st args []

/-- Redirect arm of `cmd_echo` (terminal.py 265-276): strip the target
field, normalize it, and write the stripped content field plus a
newline, appending when `app` is set. -/
def echoRedirect (st : St) (app : Bool) (content0 target0 : Str) : ExecM :=
  let file := normalize_path st (trimL target0)
  match doWrite st file (trimL content0 ++ ['\n']) app with
  | .ok st' =>
    .ok ((if app then str "Text appended to '" else str "Text written to '")
      ++ file ++ str "' successfully", st')
  | .error e => .error e

/-- Model of `UnifiedTerminal.cmd_echo` (terminal.py 262-277): join the
args with single spaces; a `>` in the joined text selects redirect mode,
`>>` selects append; the line is split on every occurrence of the
separator (Python `str.split`), the second field is the target and the
first field is the content. -/
def cmd_echo (st : St) (args : List Str) : ExecM :=
  let line := joinSep (str " ") args
  if isSubstr (str ">") line then
    if isSubstr (str ">>") line then
      -- indexing `parts[1]` is safe: `>>` occurs in `line`, so the split has ≥ 2 fields
      echoRedirect st true ((splitGtGt line).getD 0 []) ((splitGtGt line).getD 1 [])
    else
      echoRedirect st false ((splitChar '>' line).getD 0 []) ((splitChar '>' line).getD 1 [])
  else .ok (line, st)

/-- Model of `UnifiedTerminal.cmd_history` (terminal.py 279-284): `-c` clears the
in-memory log and truncates the sink; otherwise the last 50 entries. -/
def cmd_history (st : St) (args : List Str) : ExecM :=
  match args with
  | a :: _ =>
    if a = str "-c" then
      .ok (str "History cleared", { st with history := [], histFile := [] })
    else .ok (joinSep (str "\n") (st.history.drop (st.history.length - 50)), st)
  | [] => .ok (joinSep (str "\n") (st.history.drop (st.history.length - 50)), st)

/-- Model of `UnifiedTerminal.cmd_cpu` (terminal.py 287-292). -/
def cmd_cpu (st : St) : ExecM :=
  if st.psutil then
    .ok (joinSep (str "\n")
      (st.cpuSample.enum.map (fun iu => str "CPU " ++ natToStr iu.1 ++ str ": " ++ iu.2 ++ str "%")), st)
  else .ok (str "psutil module not installed", st)

/-- Model of `UnifiedTerminal.cmd_memory` (terminal.py 294-298). -/
def cmd_memory (st : St) : ExecM :=
  if st.psutil then
    .ok (str "Total: " ++ natToStr (st.memTotal / (1024 * 1024)) ++ str " MB\nUsed: "
      ++ natToStr (st.memUsed / (1024 * 1024)) ++ str " MB\nFree: "
      ++ natToStr (st.memAvail / (1024 * 1024)) ++ str " MB\nPercentage: "
      ++ st.memPercent ++ str "%", st)
  else .ok (str "psutil module not installed", st)

/-- Left-pad with spaces to width `w` (`f"{x:>5}"`). -/
def padLeft (w : Nat) (s : Str) : Str := List.replicate (w - s.length) ' ' ++ s

/-- Right-pad with spaces to width `w` (`f"{x:<20}"`). -/
def padRight (w : Nat) (s : Str) : Str := s ++ List.replicate (w - s.length) ' '

/-- Model of `UnifiedTerminal.cmd_processes` (terminal.py 300-306): first 50
processes, names truncated to 20 characters. -/
def cmd_processes (st : St) : ExecM :=
  if st.psutil then
    .ok (joinSep (str "\n")
      ((st.procs.map (fun p =>
          padLeft 5 (natToStr p.1) ++ str " " ++ padRight 20 (p.2.1.take 20) ++ str " " ++ p.2.2)).take 50), st)
  else .ok (str "psutil module not installed", st)

/-- Model of `UnifiedTerminal.system_command` (terminal.py 309-317): shell
fallback with every failure caught inside the handler. -/
def system_command (st : St) (command : Str) : ExecM :=
  match st.shell command with
  | .ok (out, err) =>
    .ok (if err ≠ [] then trimL out ++ '\n' :: trimL err else trimL out, st)
  | .error e => .ok (str "System command error: " ++ e, st)

/-- Model of `UnifiedTerminal.save_history` (terminal.py 74-82): stamp the raw
command, append it to the in-memory log and the durable sink.  The
ghost trace `appends` records the append event. -/
def save_history (st : St) (command : Str) : St :=
  let entry := str "[" ++ st.now ++ str "] " ++ command
  { st with history := st.history ++ [entry],
            histFile := st.histFile ++ entry ++ ['\n'],
            appends := st.appends ++ [entry] }

/-- The `try` block of `execute` (terminal.py 112-149): dispatch on the
case-folded verb, falling back to the shell for unknown verbs. -/
def runVerb (st : St) (cmd : Str) (args : List Str) (full : Str) : ExecM :=
  if cmd = str "ls" then cmd_ls st args
  else if cmd = str "pwd" then cmd_pwd st
  else if cmd = str "cd" then cmd_cd st args
  else if cmd = str "mkdir" then cmd_mkdir st args
  else if cmd = str "rmdir" then cmd_rmdir st args
  else if cmd = str "rm" then cmd_rm st args
  else if cmd = str "touch" then cmd_touch st args
  else if cmd = str "mv" then cmd_mv st args
  else if cmd = str "cp" then cmd_cp st args
  else if cmd = str "cat" then cmd_cat st args
  else if cmd = str "echo" then cmd_echo st args
  else if cmd = str "history" then cmd_history st args
  else if cmd = str "clear" then .ok ([], st)
  else if cmd = str "cpu" then cmd_cpu st
  else if cmd = str "memory" then cmd_memory st
  else if cmd = str "processes" then cmd_processes st
  else if cmd = str "exit" ∨ cmd = str "quit" then .ok (str "exit", st)
  else system_command st full

/-- Model of `UnifiedTerminal.execute` (terminal.py 103-151).  The result is
`none` for Python `None` (the bare `return` on whitespace-only input)
and `some text` otherwise; the outer `Except` models an exception
escaping `execute` (the dispatcher's `try` starts only after history
saving, translation and tokenization). -/
def execute (st : St) (command : Str) : Except Str (Option Str × St) :=
  if trimL command = [] then .ok (none, st)
  else
    let st1 := save_history st command
    let command1 := parse_nlp command
    match pySplitWs (trimL command1) with
    | [] => .error (str "IndexError: list index out of range")
    | p :: args =>
      match runVerb st1 (lowerL p) args command1 with
      | .ok (t, st2) => .ok (some t, st2)
      | .error (e, st2) => .ok (some (str "Error: " ++ e), st2)

/-- Result projection of `execute` (drops the state, keeping
decidability for concrete runs). -/
def execResult (st : St) (command : Str) : Except Str (Option Str) :=
  (execute st command).map (·.1)

/-- State after a run of `execute` (the state is unchanged if an
exception escaped, which never happens). -/
def afterExec (st : St) (command : Str) : St :=
  match execute st command with
  | .ok (_, st') => st'
  | .error _ => st

/-- A concrete initial state: empty filesystem rooted at `/`, empty
history, no `psutil`, inert shell. -/
def st0 : St :=
  { fs := { dirs := [str "/"], files := [] }
    cwd := str "/"
    home := str "/root"
    now := str "2025-01-01 00:00:00"
    history := []
    histFile := []
    appends := []
    psutil := false
    cpuSample := []
    memTotal := 0
    memUsed := 0
    memAvail := 0
    memPercent := []
    procs := []
    shell := fun _ => .ok ([], []) }

-- sanity checks of the dispatcher on concrete runs
example : execResult st0 (str "   ") = .ok none := by decide
example : execResult st0 (str "exit") = .ok (some (str "exit")) := by decide
example : execResult st0 (str "echo exit") = .ok (some (str "exit")) := by decide
example : execResult st0 (str "pwd") = .ok (some (str "/")) := by decide
example : execResult st0 (str "cd /nope") = .ok (some (str "cd: '/nope' does not exist")) := by decide
example :
    execResult st0 (str "echo hello > out.txt") =
      .ok (some (str "Text written to '/out.txt' successfully")) := by decide
example :
    lookupFile (afterExec st0 (str "echo hello > out.txt")).fs (str "/out.txt") =
      some (str "hello\n") := by decide
example :
    execResult st0 (str "mv a b") =
      .ok (some (str "Error: [Errno 2] No such file or directory: '/a' -> '/b'")) := by decide

/-! ### Character and string lemmas -/

/-- Python lowercasing is idempotent character-wise. -/
theorem pyToLower_idem (c : Char) : pyToLower (pyToLower c) = pyToLower c := by
  unfold pyToLower
  by_cases h : 65 ≤ c.toNat ∧ c.toNat ≤ 90
  · rw [if_pos h]
    have hv : Nat.isValidChar (c.toNat + 32) := Or.inl (by omega)
    have ht : (Char.ofNat (c.toNat + 32)).toNat = c.toNat + 32 := by
      unfold Char.ofNat; rw [dif_pos hv]; rfl
    rw [if_neg]; omega
  · rw [if_neg h, if_neg h]

/-- Characters with code at least 33 are not whitespace. -/
theorem pyIsSpace_false_of (c : Char) (h : 33 ≤ c.toNat) : pyIsSpace c = false := by
  unfold pyIsSpace
  rw [decide_eq_false (by omega : ¬ c.toNat = 32),
    decide_eq_false (by omega : ¬ c.toNat ≤ 13), Bool.and_false, Bool.or_false]

/-- Lowercasing never changes whether a character is whitespace. -/
theorem pyIsSpace_pyToLower (c : Char) : pyIsSpace (pyToLower c) = pyIsSpace c := by
  unfold pyToLower
  by_cases h : 65 ≤ c.toNat ∧ c.toNat ≤ 90
  · rw [if_pos h]
    have hv : Nat.isValidChar (c.toNat + 32) := Or.inl (by omega)
    have ht : (Char.ofNat (c.toNat + 32)).toNat = c.toNat + 32 := by
      unfold Char.ofNat; rw [dif_pos hv]; rfl
    have h2 : pyIsSpace (Char.ofNat (c.toNat + 32)) = false := by
      apply pyIsSpace_false_of; rw [ht]; omega
    rw [h2, pyIsSpace_false_of c (by omega)]
  · rw [if_neg h]

/-- A list all of whose characters are fixed points maps to itself. -/
theorem map_fixed {f : Char → Char} : ∀ {l : Str}, (∀ c ∈ l, f c = c) → l.map f = l
  | [], _ => rfl
  | c :: cs, h => by
    simp only [List.map_cons, List.cons.injEq]
    exact ⟨h c (List.mem_cons_self c cs), map_fixed fun d hd => h d (List.mem_cons_of_mem c hd)⟩

/-- Every character of a lowercased string is a fixed point of
lowercasing. -/
theorem mem_lowerL_fixed {s : Str} {c : Char} (h : c ∈ lowerL s) : pyToLower c = c := by
  unfold lowerL at h
  obtain ⟨c0, _, rfl⟩ := List.mem_map.1 h
  exact pyToLower_idem c0

/-- Stripping only discards characters. -/
theorem mem_trimL {l : Str} {c : Char} (h : c ∈ trimL l) : c ∈ l := by
  unfold trimL at h
  have h1 : c ∈ (l.dropWhile pyIsSpace).reverse :=
    (List.dropWhile_sublist pyIsSpace).subset (List.mem_reverse.1 h)
  exact (List.dropWhile_sublist pyIsSpace).subset (List.mem_reverse.1 h1)

/-- A predicate false on every element leaves `dropWhile` inert. -/
theorem dropWhile_all_neg {p : Char → Bool} :
    ∀ {l : Str}, (∀ c ∈ l, p c = false) → l.dropWhile p = l
  | [], _ => rfl
  | c :: cs, h => by
    rw [List.dropWhile_cons, h c (List.mem_cons_self c cs)]
    simp

/-- A predicate true on every element leaves `takeWhile` inert. -/
theorem takeWhile_all_pos {p : Char → Bool} :
    ∀ {l : Str}, (∀ c ∈ l, p c = true) → l.takeWhile p = l
  | [], _ => rfl
  | c :: cs, h => by
    rw [List.takeWhile_cons, h c (List.mem_cons_self c cs)]
    simp only [if_true]
    rw [takeWhile_all_pos fun d hd => h d (List.mem_cons_of_mem c hd)]

/-- Model of `takeWhile` stopping exactly at the first failing element after a
run of satisfying ones. -/
theorem takeWhile_all_append {p : Char → Bool} {a : Char} (x : Str) (ha : p a = false) :
    ∀ {l : Str}, (∀ c ∈ l, p c = true) → (l ++ a :: x).takeWhile p = l
  | [], _ => by simp [List.takeWhile_cons, ha]
  | c :: cs, h => by
    rw [List.cons_append, List.takeWhile_cons, h c (List.mem_cons_self c cs)]
    simp only [if_true]
    rw [takeWhile_all_append x ha fun d hd => h d (List.mem_cons_of_mem c hd)]

/-- A list is a prefix of itself followed by anything. -/
theorem isPrefixOf_self_append : ∀ (l t : Str), l.isPrefixOf (l ++ t) = true
  | [], _ => by simp [List.isPrefixOf]
  | c :: cs, t => by
    rw [List.cons_append, List.isPrefixOf_cons₂_self]
    exact isPrefixOf_self_append cs t

/-- Stripping is inert when the first and last characters are not
whitespace. -/
theorem trimL_eq_self {l : Str}
    (h1 : ∀ c, l.head? = some c → pyIsSpace c = false)
    (h2 : ∀ c, l.getLast? = some c → pyIsSpace c = false) : trimL l = l := by
  unfold trimL
  have e1 : l.dropWhile pyIsSpace = l := by
    cases l with
    | nil => rfl
    | cons a t => rw [List.dropWhile_cons, h1 a rfl]; simp
  rw [e1]
  have e2 : l.reverse.dropWhile pyIsSpace = l.reverse := by
    cases hr : l.reverse with
    | nil => rfl
    | cons a t =>
      have ha : l.getLast? = some a := by
        rw [← List.head?_reverse, hr]; rfl
      rw [List.dropWhile_cons, h2 a ha]; simp
  rw [e2, List.reverse_reverse]

/-- A string whose characters are all whitespace strips to nothing. -/
theorem trimL_eq_nil_of_all {l : Str} (h : ∀ c ∈ l, pyIsSpace c = true) : trimL l = [] := by
  unfold trimL
  have e1 : l.dropWhile pyIsSpace = [] := List.dropWhile_eq_nil_iff.2 h
  rw [e1]
  rfl

/-- A string that does not strip to nothing contains a non-whitespace
character. -/
theorem exists_nonspace_of_trimL_ne {l : Str} (h : trimL l ≠ []) :
    ∃ c ∈ l, pyIsSpace c = false := by
  by_contra hc
  push_neg at hc
  exact h (trimL_eq_nil_of_all fun c hcl => by
    have := hc c hcl
    cases hpc : pyIsSpace c with
    | true => rfl
    | false => exact absurd hpc this)

/-- Stripping a string that begins with a nonempty all-non-whitespace
block keeps the block intact and only trims inside the remainder. -/
theorem trimL_append_of {w : Str} (x : Str) (hw : w ≠ [])
    (hall : ∀ c ∈ w, pyIsSpace c = false) : ∃ y, trimL (w ++ x) = w ++ y := by
  unfold trimL
  have ew : w.dropWhile pyIsSpace = w := dropWhile_all_neg hall
  have e1 : (w ++ x).dropWhile pyIsSpace = w ++ x := by
    rw [List.dropWhile_append, ew]
    simp [hw]
  rw [e1, List.reverse_append, List.dropWhile_append]
  have ewr : w.reverse.dropWhile pyIsSpace = w.reverse :=
    dropWhile_all_neg fun c hc => hall c (List.mem_reverse.1 hc)
  cases hxe : (x.reverse.dropWhile pyIsSpace).isEmpty with
  | true =>
    refine ⟨[], ?_⟩
    rw [if_pos rfl, ewr, List.reverse_reverse, List.append_nil]
  | false =>
    refine ⟨(x.reverse.dropWhile pyIsSpace).reverse, ?_⟩
    rw [if_neg (by simp), List.reverse_append, List.reverse_reverse]

/-- Stripping a string of the form `A ++ ' ' :: x`, where `A` neither
starts nor ends with whitespace, yields `A` or `A` followed by a space
and a suffix of `x`. -/
theorem trimL_append_space {A : Str} (x : Str) (hA : A ≠ [])
    (hh : ∀ c, A.head? = some c → pyIsSpace c = false)
    (hl : ∀ c, A.getLast? = some c → pyIsSpace c = false) :
    trimL (A ++ ' ' :: x) = A ∨ ∃ z, trimL (A ++ ' ' :: x) = A ++ ' ' :: z := by
  unfold trimL
  have e1 : (A ++ ' ' :: x).dropWhile pyIsSpace = A ++ ' ' :: x := by
    rw [List.dropWhile_append]
    have : A.dropWhile pyIsSpace = A := by
      cases A with
      | nil => rfl
      | cons a t => rw [List.dropWhile_cons, hh a rfl]; simp
    rw [this]
    simp [hA]
  rw [e1, List.reverse_append]
  have hAr : A.reverse.dropWhile pyIsSpace = A.reverse := by
    cases hr : A.reverse with
    | nil => rfl
    | cons a t =>
      have ha : A.getLast? = some a := by rw [← List.head?_reverse, hr]; rfl
      rw [List.dropWhile_cons, hl a ha]; simp
  have hrx : (' ' :: x).reverse = x.reverse ++ [' '] := by simp
  rw [hrx, List.append_assoc, List.dropWhile_append]
  cases hxe : (x.reverse.dropWhile pyIsSpace).isEmpty with
  | true =>
    left
    rw [if_pos rfl]
    have : ([' '] ++ A.reverse).dropWhile pyIsSpace = A.reverse := by
      rw [List.singleton_append, List.dropWhile_cons]
      simp only [show pyIsSpace ' ' = true from rfl, if_true, hAr]
    rw [this, List.reverse_reverse]
  | false =>
    right
    refine ⟨(x.reverse.dropWhile pyIsSpace).reverse, ?_⟩
    rw [if_neg (by simp)]
    rw [← List.append_assoc, List.reverse_append, List.reverse_append, List.reverse_reverse]
    simp

/-- Splitting on whitespace yields at least one token when some
character is not whitespace. -/
theorem splitWsGo_ne_nil :
    ∀ (l : Str) (acc : Str), ((∃ c ∈ l, pyIsSpace c = false) ∨ acc ≠ []) →
      splitWsGo l acc ≠ [] := by
  intro l
  induction l with
  | nil =>
    intro acc h
    unfold splitWsGo
    obtain ⟨c, hc, _⟩ | hacc := h
    · exact absurd hc (List.not_mem_nil c)
    · simp [hacc]
  | cons a t ih =>
    intro acc h
    unfold splitWsGo
    split
    next hsp =>
      split
      next hacc =>
        apply ih
        left
        obtain ⟨c, hc, hcf⟩ | hacc' := h
        · rcases List.mem_cons.1 hc with rfl | hmem
          · simp [hcf] at hsp
          · exact ⟨c, hmem, hcf⟩
        · exact absurd hacc hacc'
      next hacc => exact List.cons_ne_nil _ _
    next hsp => exact ih _ (Or.inr (List.cons_ne_nil a acc))

/-- Facts about a successful one-group match: the captured group is a
nonempty run of non-whitespace characters drawn from the input. -/
theorem m1_some {lit cmd g : Str} (h : m1 lit cmd = some g) :
    g ≠ [] ∧ (∀ c ∈ g, pyIsSpace c = false) ∧ ∀ c ∈ g, c ∈ cmd := by
  unfold m1 at h
  split at h
  · dsimp only [] at h
    split at h
    · cases h
    next hne =>
      cases h
      refine ⟨hne, ?_, ?_⟩
      · intro c hc
        simpa using List.mem_takeWhile_imp hc
      · intro c hc
        exact (List.drop_sublist _ _).subset ((List.takeWhile_sublist _).subset hc)
  · cases h

/-- Facts about a successful two-group match. -/
theorem m2_some {lit cmd g1 g2 : Str} (h : m2 lit cmd = some (g1, g2)) :
    (g1 ≠ [] ∧ (∀ c ∈ g1, pyIsSpace c = false) ∧ ∀ c ∈ g1, c ∈ cmd) ∧
    (g2 ≠ [] ∧ (∀ c ∈ g2, pyIsSpace c = false) ∧ ∀ c ∈ g2, c ∈ cmd) := by
  unfold m2 at h
  split at h
  · dsimp only [] at h
    split at h
    · cases h
    next hg1 =>
      split at h
      · split at h
        · cases h
        next hg2 =>
          simp only [Option.some.injEq, Prod.mk.injEq] at h
          obtain ⟨rfl, rfl⟩ := h
          constructor
          · refine ⟨hg1, ?_, ?_⟩
            · intro c hc
              simpa using List.mem_takeWhile_imp hc
            · intro c hc
              exact (List.drop_sublist _ _).subset ((List.takeWhile_sublist _).subset hc)
          · refine ⟨hg2, ?_, ?_⟩
            · intro c hc
              simpa using List.mem_takeWhile_imp hc
            · intro c hc
              exact (List.drop_sublist _ _).subset ((List.drop_sublist _ _).subset
                ((List.drop_sublist _ _).subset ((List.takeWhile_sublist _).subset hc)))
      · cases h
  · cases h

/-- Appending a nonempty list moves the last element to the right part. -/
theorem getLast?_append_ne {u v : Str} (hv : v ≠ []) : (u ++ v).getLast? = v.getLast? := by
  rw [List.getLast?_append]
  obtain ⟨d, hd⟩ := Option.isSome_iff_exists.1 (List.getLast?_isSome.2 hv)
  rw [hd]
  rfl

/-- A one-group template output is a fixed point of translation when no
pattern matches it again. -/
theorem parse_nlp_fix_one {tpl g : Str}
    (htpl : lowerL tpl = tpl)
    (hhead : ∀ c, (tpl ++ g).head? = some c → pyIsSpace c = false)
    (hg1 : g ≠ []) (hg2 : ∀ c ∈ g, pyIsSpace c = false)
    (hg3 : ∀ c ∈ g, pyToLower c = c)
    (hnone : tryPatterns (tpl ++ g) = none) :
    parse_nlp (tpl ++ g) = tpl ++ g := by
  have hlowg : lowerL (tpl ++ g) = tpl ++ g := by
    unfold lowerL at htpl ⊢
    rw [List.map_append, htpl, map_fixed hg3]
  have hlast : ∀ c, (tpl ++ g).getLast? = some c → pyIsSpace c = false := by
    intro c hc
    rw [getLast?_append_ne hg1] at hc
    exact hg2 c (List.mem_of_mem_getLast? hc)
  have htrim : trimL (tpl ++ g) = tpl ++ g := trimL_eq_self hhead hlast
  unfold parse_nlp
  rw [hlowg, htrim, hnone]

/-- A two-group template output is a fixed point of translation when no
pattern matches it again. -/
theorem parse_nlp_fix_two {tpl g1 g2 : Str}
    (htpl : lowerL tpl = tpl)
    (hhead : ∀ c, (tpl ++ g1 ++ str " " ++ g2).head? = some c → pyIsSpace c = false)
    (_hg1 : g1 ≠ []) (hg2 : g2 ≠ [])
    (_ha1 : ∀ c ∈ g1, pyIsSpace c = false) (ha2 : ∀ c ∈ g2, pyIsSpace c = false)
    (hb1 : ∀ c ∈ g1, pyToLower c = c) (hb2 : ∀ c ∈ g2, pyToLower c = c)
    (hnone : tryPatterns (tpl ++ g1 ++ str " " ++ g2) = none) :
    parse_nlp (tpl ++ g1 ++ str " " ++ g2) = tpl ++ g1 ++ str " " ++ g2 := by
  have hsp : lowerL (str " ") = str " " := rfl
  have hlowg : lowerL (tpl ++ g1 ++ str " " ++ g2) = tpl ++ g1 ++ str " " ++ g2 := by
    unfold lowerL at htpl hsp ⊢
    rw [List.map_append, List.map_append, List.map_append, htpl, hsp,
      map_fixed hb1, map_fixed hb2]
  have hlast : ∀ c, (tpl ++ g1 ++ str " " ++ g2).getLast? = some c → pyIsSpace c = false := by
    intro c hc
    rw [getLast?_append_ne hg2] at hc
    exact ha2 c (List.mem_of_mem_getLast? hc)
  have htrim : trimL (tpl ++ g1 ++ str " " ++ g2) = tpl ++ g1 ++ str " " ++ g2 :=
    trimL_eq_self hhead hlast
  unfold parse_nlp
  rw [hlowg, htrim, hnone]

/-- Heads of cons-shaped strings with a non-whitespace first character. -/
theorem head_cons_nonspace {a : Char} {t : Str} (ha : pyIsSpace a = false) :
    ∀ c, (a :: t).head? = some c → pyIsSpace c = false := by
  intro c hc
  rw [List.head?_cons] at hc
  injection hc with e
  subst e
  exact ha

/-- Every output of the pattern table is itself a fixed point of
translation (no pattern anchors on a canonical verb the table also
produces), and contains a non-whitespace character. -/
theorem tryPatterns_inv {cmd out : Str} (hlow : ∀ c ∈ cmd, pyToLower c = c)
    (h : tryPatterns cmd = some out) :
    parse_nlp out = out ∧ ∃ c ∈ out, pyIsSpace c = false := by
  unfold tryPatterns at h
  cases h1 : m1 (str "create file ") cmd with
  | some g =>
    simp only [h1] at h
    injection h with h2
    subst h2
    obtain ⟨hg1, hg2, hg3m⟩ := m1_some h1
    exact ⟨parse_nlp_fix_one (by decide) (head_cons_nonspace (by decide)) hg1 hg2
      (fun c hc => hlow c (hg3m c hc)) rfl,
      ⟨'t', by exact List.mem_cons_self _ _, by decide⟩⟩
  | none =>
  simp only [h1] at h
  cases h2 : m1 (str "create folder ") cmd with
  | some g =>
    simp only [h2] at h
    injection h with he
    subst he
    obtain ⟨hg1, hg2, hg3m⟩ := m1_some h2
    exact ⟨parse_nlp_fix_one (by decide) (head_cons_nonspace (by decide)) hg1 hg2
      (fun c hc => hlow c (hg3m c hc)) rfl,
      ⟨'m', by exact List.mem_cons_self _ _, by decide⟩⟩
  | none =>
  simp only [h2] at h
  cases h3 : m1 (str "delete file ") cmd with
  | some g =>
    simp only [h3] at h
    injection h with he
    subst he
    obtain ⟨hg1, hg2, hg3m⟩ := m1_some h3
    exact ⟨parse_nlp_fix_one (by decide) (head_cons_nonspace (by decide)) hg1 hg2
      (fun c hc => hlow c (hg3m c hc)) rfl,
      ⟨'r', by exact List.mem_cons_self _ _, by decide⟩⟩
  | none =>
  simp only [h3] at h
  cases h4 : m1 (str "remove file ") cmd with
  | some g =>
    simp only [h4] at h
    injection h with he
    subst he
    obtain ⟨hg1, hg2, hg3m⟩ := m1_some h4
    exact ⟨parse_nlp_fix_one (by decide) (head_cons_nonspace (by decide)) hg1 hg2
      (fun c hc => hlow c (hg3m c hc)) rfl,
      ⟨'r', by exact List.mem_cons_self _ _, by decide⟩⟩
  | none =>
  simp only [h4] at h
  cases h5 : m2 (str "rename file ") cmd with
  | some p =>
    obtain ⟨g1, g2⟩ := p
    simp only [h5] at h
    injection h with he
    subst he
    obtain ⟨⟨ha1, ha2, ha3⟩, ⟨hb1, hb2, hb3⟩⟩ := m2_some h5
    exact ⟨parse_nlp_fix_two (by decide) (head_cons_nonspace (by decide)) ha1 hb1 ha2 hb2
      (fun c hc => hlow c (ha3 c hc)) (fun c hc => hlow c (hb3 c hc)) rfl,
      ⟨'m', by exact List.mem_cons_self _ _, by decide⟩⟩
  | none =>
  simp only [h5] at h
  cases h6 : m2 (str "move ") cmd with
  | some p =>
    obtain ⟨g1, g2⟩ := p
    simp only [h6] at h
    injection h with he
    subst he
    obtain ⟨⟨ha1, ha2, ha3⟩, ⟨hb1, hb2, hb3⟩⟩ := m2_some h6
    exact ⟨parse_nlp_fix_two (by decide) (head_cons_nonspace (by decide)) ha1 hb1 ha2 hb2
      (fun c hc => hlow c (ha3 c hc)) (fun c hc => hlow c (hb3 c hc)) rfl,
      ⟨'m', by exact List.mem_cons_self _ _, by decide⟩⟩
  | none =>
  simp only [h6] at h
  cases h7 : m2 (str "copy ") cmd with
  | some p =>
    obtain ⟨g1, g2⟩ := p
    simp only [h7] at h
    injection h with he
    subst he
    obtain ⟨⟨ha1, ha2, ha3⟩, ⟨hb1, hb2, hb3⟩⟩ := m2_some h7
    exact ⟨parse_nlp_fix_two (by decide) (head_cons_nonspace (by decide)) ha1 hb1 ha2 hb2
      (fun c hc => hlow c (ha3 c hc)) (fun c hc => hlow c (hb3 c hc)) rfl,
      ⟨'c', by exact List.mem_cons_self _ _, by decide⟩⟩
  | none =>
  simp only [h7] at h
  cases h8 : m1 (str "show contents of ") cmd with
  | some g =>
    simp only [h8] at h
    injection h with he
    subst he
    obtain ⟨hg1, hg2, hg3m⟩ := m1_some h8
    exact ⟨parse_nlp_fix_one (by decide) (head_cons_nonspace (by decide)) hg1 hg2
      (fun c hc => hlow c (hg3m c hc)) rfl,
      ⟨'c', by exact List.mem_cons_self _ _, by decide⟩⟩
  | none =>
  simp only [h8] at h
  cases h9 : m1 (str "list directory ") cmd with
  | some g =>
    simp only [h9] at h
    injection h with he
    subst he
    obtain ⟨hg1, hg2, hg3m⟩ := m1_some h9
    exact ⟨parse_nlp_fix_one (by decide) (head_cons_nonspace (by decide)) hg1 hg2
      (fun c hc => hlow c (hg3m c hc)) rfl,
      ⟨'l', by exact List.mem_cons_self _ _, by decide⟩⟩
  | none =>
  simp only [h9] at h
  cases h10 : m1 (str "go to directory ") cmd with
  | some g =>
    simp only [h10] at h
    injection h with he
    subst he
    obtain ⟨hg1, hg2, hg3m⟩ := m1_some h10
    exact ⟨parse_nlp_fix_one (by decide) (head_cons_nonspace (by decide)) hg1 hg2
      (fun c hc => hlow c (hg3m c hc)) rfl,
      ⟨'c', by exact List.mem_cons_self _ _, by decide⟩⟩
  | none =>
  simp only [h10] at h
  split at h
  · injection h with he; subst he; exact ⟨by decide, by decide⟩
  split at h
  · injection h with he; subst he; exact ⟨by decide, by decide⟩
  split at h
  · injection h with he; subst he; exact ⟨by decide, by decide⟩
  split at h
  · injection h with he; subst he; exact ⟨by decide, by decide⟩
  split at h
  · injection h with he; subst he; exact ⟨by decide, by decide⟩
  · cases h

/-- Dropping a satisfying prefix cannot lose the only non-whitespace
character. -/
theorem exists_nonspace_dropWhile {l : Str} (h : ∃ c ∈ l, pyIsSpace c = false) :
    ∃ c ∈ l.dropWhile pyIsSpace, pyIsSpace c = false := by
  induction l with
  | nil =>
    obtain ⟨c, hc, _⟩ := h
    exact absurd hc (List.not_mem_nil c)
  | cons a t ih =>
    obtain ⟨c, hc, hcf⟩ := h
    rw [List.dropWhile_cons]
    split
    next hsp =>
      apply ih
      rcases List.mem_cons.1 hc with rfl | hm
      · rw [hsp] at hcf; cases hcf
      · exact ⟨c, hm, hcf⟩
    next hsp => exact ⟨c, hc, hcf⟩

/-- Stripping cannot lose the only non-whitespace character. -/
theorem exists_nonspace_trimL {l : Str} (h : ∃ c ∈ l, pyIsSpace c = false) :
    ∃ c ∈ trimL l, pyIsSpace c = false := by
  unfold trimL
  have h1 := exists_nonspace_dropWhile h
  have h2 : ∃ c ∈ (l.dropWhile pyIsSpace).reverse, pyIsSpace c = false := by
    obtain ⟨c, hc, hcf⟩ := h1
    exact ⟨c, List.mem_reverse.2 hc, hcf⟩
  obtain ⟨c, hc, hcf⟩ := exists_nonspace_dropWhile h2
  exact ⟨c, List.mem_reverse.2 hc, hcf⟩

/-- The lowercased stripped working copy of any input consists of
lowercase fixed points. -/
theorem hlow_of (s : Str) : ∀ c ∈ trimL (lowerL s), pyToLower c = c :=
  fun _ hc => mem_lowerL_fixed (mem_trimL hc)

/-- After translation of non-blank input, tokenization always yields at
least the verb token (so `parts[0]` never raises). -/
theorem pySplitWs_parse_ne {s : Str} (h : trimL s ≠ []) :
    pySplitWs (trimL (parse_nlp s)) ≠ [] := by
  have hs : ∃ c ∈ s, pyIsSpace c = false := exists_nonspace_of_trimL_ne h
  have hx : ∃ c ∈ parse_nlp s, pyIsSpace c = false := by
    cases hp : tryPatterns (trimL (lowerL s)) with
    | none => unfold parse_nlp; rw [hp]; exact hs
    | some out =>
      unfold parse_nlp; rw [hp]
      exact (tryPatterns_inv (hlow_of s) hp).2
  exact splitWsGo_ne_nil _ [] (Or.inl (exists_nonspace_trimL hx))

/-! ### Handler frame lemmas

The ghost trace `appends` is written only by `save_history`; every
handler (and any exception state it raises) leaves it untouched. -/

/-- State carried by a handler outcome, error or not. -/
def stOf : ExecM → St
  | .ok p => p.2
  | .error p => p.2

/-- State carried by a write outcome. -/
def stOfW : Except (Str × St) St → St
  | .ok s => s
  | .error p => p.2

/-- Writing a file never touches the ghost trace. -/
theorem doWrite_appends (st : St) (p c : Str) (a : Bool) :
    (stOfW (doWrite st p c a)).appends = st.appends := by
  unfold doWrite
  cases h : openWriteErr st.fs p with
  | some e => rfl
  | none => rfl

theorem doWrite_ok_appends {st st' : St} {p c : Str} {a : Bool}
    (h : doWrite st p c a = .ok st') : st'.appends = st.appends := by
  have hw := doWrite_appends st p c a
  rw [h] at hw
  exact hw

theorem doWrite_error_appends {st : St} {e : Str × St} {p c : Str} {a : Bool}
    (h : doWrite st p c a = .error e) : e.2.appends = st.appends := by
  have hw := doWrite_appends st p c a
  rw [h] at hw
  exact hw

theorem stOf_cmd_ls (st : St) (args : List Str) :
    (stOf (cmd_ls st args)).appends = st.appends := by
  unfold cmd_ls
  dsimp only []
  repeat' split
  all_goals rfl

theorem stOf_cmd_pwd (st : St) : (stOf (cmd_pwd st)).appends = st.appends := rfl

theorem stOf_cmd_cd (st : St) (args : List Str) :
    (stOf (cmd_cd st args)).appends = st.appends := by
  unfold cmd_cd
  dsimp only []
  repeat' split
  all_goals rfl

theorem stOf_mkdirOne (st : St) (p0 : Str) :
    (stOf (mkdirOne st p0)).appends = st.appends := by
  unfold mkdirOne
  dsimp only []
  repeat' split
  all_goals rfl

theorem stOf_eachPath (f : St → Str → ExecM)
    (hf : ∀ st a, (stOf (f st a)).appends = st.appends) :
    ∀ (args : List Str) (st : St) (acc : List Str),
      (stOf (eachPath f st args acc)).appends = st.appends := by
  intro args
  induction args with
  | nil => intro st acc; rfl
  | cons a rest ih =>
    intro st acc
    unfold eachPath
    cases hfa : f st a with
    | ok p =>
      obtain ⟨msg, st'⟩ := p
      have hp := hf st a
      rw [hfa] at hp
      rw [ih st' (msg :: acc)]
      exact hp
    | error e =>
      have hp := hf st a
      rw [hfa] at hp
      exact hp

theorem stOf_cmd_mkdir (st : St) (args : List Str) :
    (stOf (cmd_mkdir st args)).appends = st.appends := by
  unfold cmd_mkdir
  split
  · rfl
  · exact stOf_eachPath mkdirOne stOf_mkdirOne args st []

theorem stOf_rmdirOne (st : St) (p0 : Str) :
    (stOf (rmdirOne st p0)).appends = st.appends := by
  unfold rmdirOne
  dsimp only []
  repeat' split
  all_goals rfl

theorem stOf_cmd_rmdir (st : St) (args : List Str) :
    (stOf (cmd_rmdir st args)).appends = st.appends := by
  unfold cmd_rmdir
  split
  · rfl
  · exact stOf_eachPath rmdirOne stOf_rmdirOne args st []

theorem stOf_rmOne (st : St) (p0 : Str) :
    (stOf (rmOne st p0)).appends = st.appends := by
  unfold rmOne
  dsimp only []
  repeat' split
  all_goals rfl

theorem stOf_cmd_rm (st : St) (args : List Str) :
    (stOf (cmd_rm st args)).appends = st.appends := by
  unfold cmd_rm
  split
  · rfl
  · exact stOf_eachPath rmOne stOf_rmOne args st []

theorem stOf_touchOne (st : St) (p0 : Str) :
    (stOf (touchOne st p0)).appends = st.appends := by
  unfold touchOne
  dsimp only []
  split
  next st' heq => exact doWrite_ok_appends heq
  next e heq => exact doWrite_error_appends heq

theorem stOf_cmd_touch (st : St) (args : List Str) :
    (stOf (cmd_touch st args)).appends = st.appends := by
  unfold cmd_touch
  split
  · rfl
  · exact stOf_eachPath touchOne stOf_touchOne args st []

theorem stOf_cmd_mv (st : St) (args : List Str) :
    (stOf (cmd_mv st args)).appends = st.appends := by
  unfold cmd_mv
  dsimp only []
  repeat' split
  all_goals rfl

theorem stOf_cmd_cp (st : St) (args : List Str) :
    (stOf (cmd_cp st args)).appends = st.appends := by
  unfold cmd_cp
  dsimp only []
  split
  · split
    · split <;> rfl
    · split
      · rfl
      · split
        next st' heq => exact doWrite_ok_appends heq
        next e heq => exact doWrite_error_appends heq
  · rfl

theorem stOf_catOne (st : St) (p0 : Str) :
    (stOf (catOne st p0)).appends = st.appends := by
  unfold catOne
  dsimp only []
  repeat' split
  all_goals rfl

theorem stOf_cmd_cat (st : St) (args : List Str) :
    (stOf (cmd_cat st args)).appends = st.appends := by
  unfold cmd_cat
  split
  · rfl
  · exact stOf_eachPath catOne stOf_catOne args st []

theorem stOf_echoRedirect (st : St) (app : Bool) (c0 t0 : Str) :
    (stOf (echoRedirect st app c0 t0)).appends = st.appends := by
  unfold echoRedirect
  dsimp only []
  split
  next st' heq => exact doWrite_ok_appends heq
  next e heq => exact doWrite_error_appends heq

theorem stOf_cmd_echo (st : St) (args : List Str) :
    (stOf (cmd_echo st args)).appends = st.appends := by
  simp only [cmd_echo]
  split
  · split <;> apply stOf_echoRedirect
  · rfl

theorem stOf_cmd_history (st : St) (args : List Str) :
    (stOf (cmd_history st args)).appends = st.appends := by
  unfold cmd_history
  repeat' split
  all_goals rfl

theorem stOf_cmd_cpu (st : St) : (stOf (cmd_cpu st)).appends = st.appends := by
  unfold cmd_cpu
  split <;> rfl

theorem stOf_cmd_memory (st : St) : (stOf (cmd_memory st)).appends = st.appends := by
  unfold cmd_memory
  split <;> rfl

theorem stOf_cmd_processes (st : St) : (stOf (cmd_processes st)).appends = st.appends := by
  unfold cmd_processes
  split <;> rfl

theorem stOf_system_command (st : St) (command : Str) :
    (stOf (system_command st command)).appends = st.appends := by
  unfold system_command
  split <;> rfl

/-- No branch of the dispatcher's `try` block writes the ghost trace. -/
theorem stOf_runVerb (st : St) (cmd : Str) (args : List Str) (full : Str) :
    (stOf (runVerb st cmd args full)).appends = st.appends := by
  unfold runVerb
  by_cases h1 : cmd = str "ls"
  · rw [if_pos h1]; exact stOf_cmd_ls st args
  rw [if_neg h1]
  by_cases h2 : cmd = str "pwd"
  · rw [if_pos h2]; exact stOf_cmd_pwd st
  rw [if_neg h2]
  by_cases h3 : cmd = str "cd"
  · rw [if_pos h3]; exact stOf_cmd_cd st args
  rw [if_neg h3]
  by_cases h4 : cmd = str "mkdir"
  · rw [if_pos h4]; exact stOf_cmd_mkdir st args
  rw [if_neg h4]
  by_cases h5 : cmd = str "rmdir"
  · rw [if_pos h5]; exact stOf_cmd_rmdir st args
  rw [if_neg h5]
  by_cases h6 : cmd = str "rm"
  · rw [if_pos h6]; exact stOf_cmd_rm st args
  rw [if_neg h6]
  by_cases h7 : cmd = str "touch"
  · rw [if_pos h7]; exact stOf_cmd_touch st args
  rw [if_neg h7]
  by_cases h8 : cmd = str "mv"
  · rw [if_pos h8]; exact stOf_cmd_mv st args
  rw [if_neg h8]
  by_cases h9 : cmd = str "cp"
  · rw [if_pos h9]; exact stOf_cmd_cp st args
  rw [if_neg h9]
  by_cases h10 : cmd = str "cat"
  · rw [if_pos h10]; exact stOf_cmd_cat st args
  rw [if_neg h10]
  by_cases h11 : cmd = str "echo"
  · rw [if_pos h11]; exact stOf_cmd_echo st args
  rw [if_neg h11]
  by_cases h12 : cmd = str "history"
  · rw [if_pos h12]; exact stOf_cmd_history st args
  rw [if_neg h12]
  by_cases h13 : cmd = str "clear"
  · rw [if_pos h13]; rfl
  rw [if_neg h13]
  by_cases h14 : cmd = str "cpu"
  · rw [if_pos h14]; exact stOf_cmd_cpu st
  rw [if_neg h14]
  by_cases h15 : cmd = str "memory"
  · rw [if_pos h15]; exact stOf_cmd_memory st
  rw [if_neg h15]
  by_cases h16 : cmd = str "processes"
  · rw [if_pos h16]; exact stOf_cmd_processes st
  rw [if_neg h16]
  by_cases h17 : cmd = str "exit" ∨ cmd = str "quit"
  · rw [if_pos h17]; rfl
  rw [if_neg h17]
  exact stOf_system_command st full

/-! ### Split versus first-occurrence decomposition (for `cmd_echo`) -/

theorem consHead_ne_nil (c : Char) (L : List Str) : consHead c L ≠ [] := by
  unfold consHead
  split <;> simp

theorem consHead_getD_one (c : Char) {L : List Str} (h : L ≠ []) :
    (consHead c L).getD 1 [] = L.getD 1 [] := by
  cases L with
  | nil => exact absurd rfl h
  | cons s ss => rfl

theorem splitGtGt_ne_nil (l : Str) : splitGtGt l ≠ [] := by
  induction l using splitGtGt.induct with
  | case1 rest ih => simp [splitGtGt]
  | case2 c rest h ih =>
    simp only [splitGtGt]
    exact consHead_ne_nil c _
  | case3 => simp [splitGtGt]

/-- The pattern `>>` does sit at the start of `'>' :: '>' :: rest`. -/
theorem gtgt_pre_cons (rest : Str) : (str ">>").isPrefixOf ('>' :: '>' :: rest) = true := by
  show (('>' == '>') && (('>' == '>') && List.isPrefixOf ([] : Str) rest)) = true
  rw [List.isPrefixOf_nil_left]
  rfl

/-- The two-character pattern `>>` does not sit at the start of `c :: rest`
when the head shape rules it out. -/
theorem gtgt_not_pre {c : Char} {rest : Str}
    (h : ∀ (r : Str), c = '>' → rest = '>' :: r → False) :
    (str ">>").isPrefixOf (c :: rest) = false := by
  cases rest with
  | nil =>
    show (('>' == c) && List.isPrefixOf (['>'] : Str) []) = false
    rw [show List.isPrefixOf (['>'] : Str) ([] : Str) = false from rfl, Bool.and_false]
  | cons d rs =>
    by_cases hc : c = '>'
    · by_cases hd : d = '>'
      · exact (h rs hc (by rw [hd])).elim
      · subst hc
        have hbd : ('>' == d) = false := beq_eq_false_iff_ne.2 fun e => hd e.symm
        show (('>' == '>') && (('>' == d) && List.isPrefixOf ([] : Str) rs)) = false
        rw [hbd]
        rfl
    · have hbc : ('>' == c) = false := beq_eq_false_iff_ne.2 fun e => hc e.symm
      show (('>' == c) && List.isPrefixOf (['>'] : Str) (d :: rs)) = false
      rw [hbc]
      rfl

/-- Field 0 of `line.split(">>")` is the text before the first `>>`. -/
theorem splitGtGt_zero : ∀ l, (splitGtGt l).getD 0 [] = beforeFirst (str ">>") l := by
  intro l
  induction l using splitGtGt.induct with
  | case1 rest ih =>
    unfold beforeFirst
    rw [if_pos (by rw [gtgt_pre_cons])]
    rfl
  | case2 c rest h ih =>
    have hpre := gtgt_not_pre h
    simp only [splitGtGt]
    unfold beforeFirst
    rw [if_neg (by simp [hpre])]
    cases hs : splitGtGt rest with
    | nil => exact absurd hs (splitGtGt_ne_nil rest)
    | cons s ss =>
      rw [hs] at ih
      simp only [consHead, List.getD_cons_zero] at ih ⊢
      rw [ih]
  | case3 => rfl

/-- Field 1 of `line.split(">>")` is the text between the first and
second occurrences of `>>` (everything after the first when it occurs
once), provided `>>` occurs at all. -/
theorem splitGtGt_one : ∀ l, isSubstr (str ">>") l = true →
    (splitGtGt l).getD 1 [] = beforeFirst (str ">>") (afterFirst (str ">>") l) := by
  intro l
  induction l using splitGtGt.induct with
  | case1 rest ih =>
    intro _
    have h0 := splitGtGt_zero rest
    simp only [splitGtGt, List.getD_cons_succ]
    unfold afterFirst
    rw [if_pos (by rw [gtgt_pre_cons])]
    exact h0
  | case2 c rest h ih =>
    intro hsub
    have hpre := gtgt_not_pre h
    have hrest : isSubstr (str ">>") rest = true := by
      unfold isSubstr at hsub
      rw [hpre] at hsub
      simpa using hsub
    simp only [splitGtGt]
    rw [consHead_getD_one c (splitGtGt_ne_nil rest), ih hrest]
    have e : afterFirst (str ">>") (c :: rest) = afterFirst (str ">>") rest := by
      simp only [afterFirst]
      rw [if_neg (by simp [hpre])]
    rw [e]
  | case3 =>
    intro hsub
    cases hsub

theorem gt_pre (c : Char) (cs : Str) : (str ">").isPrefixOf (c :: cs) = ('>' == c) := by
  show (('>' == c) && List.isPrefixOf ([] : Str) cs) = ('>' == c)
  rw [List.isPrefixOf_nil_left, Bool.and_true]

theorem splitGt_ne_nil : ∀ l : Str, splitChar '>' l ≠ [] := by
  intro l
  induction l with
  | nil => simp [splitChar]
  | cons c cs ih =>
    simp only [splitChar]
    split
    · simp
    · exact consHead_ne_nil c _

/-- Field 0 of `line.split(">")` is the text before the first `>`. -/
theorem splitGt_zero : ∀ l : Str, (splitChar '>' l).getD 0 [] = beforeFirst (str ">") l := by
  intro l
  induction l with
  | nil => rfl
  | cons c cs ih =>
    by_cases hc : c = '>'
    · simp only [splitChar, if_pos hc]
      unfold beforeFirst
      rw [if_pos (by rw [gt_pre]; exact beq_iff_eq.2 hc.symm)]
      rfl
    · simp only [splitChar, if_neg hc]
      unfold beforeFirst
      rw [if_neg (by rw [gt_pre]; simp; exact fun e => hc e.symm)]
      cases hs : splitChar '>' cs with
      | nil => exact absurd hs (splitGt_ne_nil cs)
      | cons s ss =>
        rw [hs] at ih
        simp only [consHead, List.getD_cons_zero] at ih ⊢
        rw [ih]

/-- Field 1 of `line.split(">")` is the text between the first and
second occurrences of `>` (everything after the first when it occurs
once), provided `>` occurs at all. -/
theorem splitGt_one : ∀ l : Str, isSubstr (str ">") l = true →
    (splitChar '>' l).getD 1 [] = beforeFirst (str ">") (afterFirst (str ">") l) := by
  intro l
  induction l with
  | nil => intro hsub; cases hsub
  | cons c cs ih =>
    intro hsub
    by_cases hc : c = '>'
    · simp only [splitChar, if_pos hc, List.getD_cons_succ]
      have e : afterFirst (str ">") (c :: cs) = cs := by
        simp only [afterFirst]
        rw [if_pos (by rw [gt_pre]; exact beq_iff_eq.2 hc.symm)]
        rfl
      rw [e]
      exact splitGt_zero cs
    · have hpre : (str ">").isPrefixOf (c :: cs) = false := by
        rw [gt_pre]
        simp
        exact fun e => hc e.symm
      have hrest : isSubstr (str ">") cs = true := by
        unfold isSubstr at hsub
        rw [hpre] at hsub
        simpa using hsub
      simp only [splitChar, if_neg hc]
      rw [consHead_getD_one c (splitGt_ne_nil cs), ih hrest]
      have e : afterFirst (str ">") (c :: cs) = afterFirst (str ">") cs := by
        simp only [afterFirst]
        rw [if_neg (by simp [hpre])]
      rw [e]

/-- An occurrence of `>>` contains an occurrence of `>`. -/
theorem isSubstr_gt_of_gtgt : ∀ l : Str, isSubstr (str ">>") l = true →
    isSubstr (str ">") l = true := by
  intro l
  induction l with
  | nil => intro hsub; cases hsub
  | cons c cs ih =>
    intro hsub
    unfold isSubstr at hsub ⊢
    rcases Bool.or_eq_true_iff.1 hsub with hp | hs
    · cases cs with
      | nil =>
        rw [show (str ">>").isPrefixOf [c] = false from by
          rw [show List.isPrefixOf (str ">>") [c] =
            (('>' == c) && List.isPrefixOf (['>'] : Str) []) from rfl]
          rw [show List.isPrefixOf (['>'] : Str) ([] : Str) = false from rfl, Bool.and_false]] at hp
        cases hp
      | cons d rs =>
        have hc : ('>' == c) = true := by
          have : (('>' == c) && (('>' == d) && List.isPrefixOf ([] : Str) rs)) = true := hp
          exact (Bool.and_eq_true_iff.1 this).1
        rw [gt_pre, hc]
        rfl
    · rw [ih hs]
      simp

/-! ### Substring and matcher computation helpers -/

theorem isSubstr_self_append (p v : Str) : isSubstr p (p ++ v) = true := by
  cases p with
  | nil =>
    cases v with
    | nil => rfl
    | cons c cs => simp [isSubstr, List.isPrefixOf_nil_left]
  | cons a as =>
    show isSubstr (a :: as) ((a :: as) ++ v) = true
    rw [List.cons_append]
    unfold isSubstr
    rw [show ((a :: as).isPrefixOf (a :: (as ++ v))) = true from
      (by rw [← List.cons_append]; exact isPrefixOf_self_append (a :: as) v)]
    simp

/-- A string occurs as a substring wherever it is spliced in. -/
theorem isSubstr_of_parts (p : Str) : ∀ (u v : Str), isSubstr p (u ++ p ++ v) = true
  | [], v => by simpa using isSubstr_self_append p v
  | c :: cu, v => by
    show isSubstr p (((c :: cu) ++ p) ++ v) = true
    rw [List.cons_append, List.cons_append]
    unfold isSubstr
    rw [isSubstr_of_parts p cu v]
    simp

/-- Computation of a one-group match at an input made of the literal, a
non-whitespace token and (optionally) a space-led tail: the token is
captured, the tail ignored. -/
theorem m1_matches (lit g t : Str)
    (hg1 : g ≠ []) (hg2 : ∀ c ∈ g, pyIsSpace c = false)
    (ht : t = [] ∨ ∃ z, t = ' ' :: z) :
    m1 lit (lit ++ (g ++ t)) = some g := by
  unfold m1
  rw [if_pos (by rw [isPrefixOf_self_append])]
  dsimp only []
  rw [List.drop_left]
  have htake : (g ++ t).takeWhile (fun c => !pyIsSpace c) = g := by
    rcases ht with rfl | ⟨z, rfl⟩
    · rw [List.append_nil]
      exact takeWhile_all_pos fun c hc => by simp [hg2 c hc]
    · exact takeWhile_all_append z (by decide) fun c hc => by simp [hg2 c hc]
  rw [htake, if_neg hg1]

/-- The first pattern of the table wins when it matches. -/
theorem tryPatterns_create_file {cmd g : Str}
    (h : m1 (str "create file ") cmd = some g) :
    tryPatterns cmd = some (str "touch " ++ g) := by
  unfold tryPatterns
  rw [h]

/-- Any input beginning with `help` rewrites to exactly `help`; the
fourteen earlier patterns all fail on the first character. -/
theorem tryPatterns_help (y : Str) : tryPatterns (str "help" ++ y) = some (str "help") := by
  unfold tryPatterns
  rw [show m0 (str "help") (str "help" ++ y) = true from isPrefixOf_self_append _ _]
  rfl

/-- Lowercasing distributes over concatenation. -/
theorem lowerL_append (a b : Str) : lowerL (a ++ b) = lowerL a ++ lowerL b :=
  List.map_append pyToLower a b

/-- Lowercasing preserves non-whitespace. -/
theorem lowerL_nonspace {w : Str} (h : ∀ c ∈ w, pyIsSpace c = false) :
    ∀ c ∈ lowerL w, pyIsSpace c = false := by
  intro c hc
  obtain ⟨c0, hc0, rfl⟩ := List.mem_map.1 hc
  rw [pyIsSpace_pyToLower]
  exact h c0 hc0

/-- Lowercasing preserves nonemptiness. -/
theorem lowerL_ne_nil {w : Str} (h : w ≠ []) : lowerL w ≠ [] := by
  cases w with
  | nil => exact absurd rfl h
  | cons c cs => simp [lowerL]

/-! ### The claims -/

/-- C1: for every non-empty input string, `execute` returns either a
textual result or the exit signal; any exception raised inside the
dispatch `try` block (built-in handler or shell fallback) is caught and
converted into an `"Error: <description>"` result, and no exception
propagates past `execute` to the caller. -/
theorem execute_total_and_catches (st : St) (s : Str) (h : trimL s ≠ []) :
    (∃ t st', execute st s = .ok (some t, st')) ∧
    (∀ p args e st2, pySplitWs (trimL (parse_nlp s)) = p :: args →
      runVerb (save_history st s) (lowerL p) args (parse_nlp s) = .error (e, st2) →
      execute st s = .ok (some (str "Error: " ++ e), st2)) := by
  constructor
  · simp only [execute]
    rw [if_neg h]
    cases hsp : pySplitWs (trimL (parse_nlp s)) with
    | nil => exact absurd hsp (pySplitWs_parse_ne h)
    | cons p args =>
      dsimp only []
      cases hrv : runVerb (save_history st s) (lowerL p) args (parse_nlp s) with
      | ok v =>
        obtain ⟨t, st2⟩ := v
        exact ⟨t, st2, rfl⟩
      | error v =>
        obtain ⟨e, st2⟩ := v
        exact ⟨str "Error: " ++ e, st2, rfl⟩
  · intro p args e st2 hsp hrv
    simp only [execute]
    rw [if_neg h, hsp]
    dsimp only []
    rw [hrv]

theorem execute_total_and_catches_witness :
    trimL (str "mv a b") ≠ [] ∧
    (∃ t st', execute st0 (str "mv a b") = .ok (some t, st')) ∧
    execute st0 (str "mv a b") =
      .ok (some (str "Error: " ++ str "[Errno 2] No such file or directory: '/a' -> '/b'"),
        save_history st0 (str "mv a b")) :=
  ⟨by decide, (execute_total_and_catches st0 (str "mv a b") (by decide)).1,
    (execute_total_and_catches st0 (str "mv a b") (by decide)).2
      (str "mv") [str "a", str "b"]
      (str "[Errno 2] No such file or directory: '/a' -> '/b'")
      (save_history st0 (str "mv a b")) rfl rfl⟩

/-- C2: for every non-empty input, `execute` appends exactly one entry
to the history store, the append happens before phrase translation (the
recorded text is built from the raw input, not the translated one), and
the entry equals the untranslated input prefixed with a timestamp.  The
ghost trace `appends` records exactly the entries passed to
`save_history`. -/
theorem execute_appends_exactly_one_raw_entry (st : St) (s : Str) (h : trimL s ≠ []) :
    ∃ r st', execute st s = .ok (some r, st') ∧
      st'.appends = st.appends ++ [str "[" ++ st.now ++ str "] " ++ s] := by
  simp only [execute]
  rw [if_neg h]
  cases hsp : pySplitWs (trimL (parse_nlp s)) with
  | nil => exact absurd hsp (pySplitWs_parse_ne h)
  | cons p args =>
    dsimp only []
    have hrv := stOf_runVerb (save_history st s) (lowerL p) args (parse_nlp s)
    cases hr : runVerb (save_history st s) (lowerL p) args (parse_nlp s) with
    | ok v =>
      obtain ⟨t, st2⟩ := v
      rw [hr] at hrv
      exact ⟨t, st2, rfl, hrv⟩
    | error v =>
      obtain ⟨e, st2⟩ := v
      rw [hr] at hrv
      exact ⟨str "Error: " ++ e, st2, rfl, hrv⟩

theorem execute_appends_exactly_one_raw_entry_witness :
    trimL (str "pwd") ≠ [] ∧
    ∃ r st', execute st0 (str "pwd") = .ok (some r, st') ∧
      st'.appends = st0.appends ++ [str "[" ++ st0.now ++ str "] " ++ str "pwd"] :=
  ⟨by decide, execute_appends_exactly_one_raw_entry st0 (str "pwd") (by decide)⟩

/-- C3 counterexample: the claim that no command other than `exit`/`quit`
can produce a result equal to the exit signal is false: `echo exit`
returns the very string `"exit"` that is the exit signal. -/
theorem echo_exit_collides_with_exit_signal :
    execResult st0 (str "echo exit") = execResult st0 (str "exit") ∧
    execResult st0 (str "echo exit") = .ok (some (str "exit")) := by decide

/-- C3 (amended): the exit signal is the plain string `"exit"`; `exit`
and `quit` return it, but it is not distinguished from ordinary textual
output — an `echo` command whose joined text is `"exit"` produces an
equal result value. -/
theorem exit_signal_is_plain_exit_string (st : St) :
    execResult st (str "exit") = .ok (some (str "exit")) ∧
    execResult st (str "quit") = .ok (some (str "exit")) ∧
    execResult st (str "echo exit") = .ok (some (str "exit")) :=
  ⟨rfl, rfl, rfl⟩

/-- C4 counterexample: on whitespace-only input `execute` returns the
Python `None` value (a bare `return`), not a result with empty text. -/
theorem whitespace_input_returns_none_not_empty_text :
    execResult st0 (str "   ") = .ok none ∧
    execResult st0 (str "   ") ≠ .ok (some []) := by decide

/-- C4 (amended): for every input that is empty or whitespace-only,
`execute` appends no history entry and returns Python `None` (no result
value at all), which is distinct from both the empty string and the
exit signal. -/
theorem execute_whitespace_returns_python_none (st : St) (s : Str) (h : trimL s = []) :
    execute st s = .ok (none, st) ∧ (none : Option Str) ≠ some [] ∧
    (none : Option Str) ≠ some (str "exit") := by
  refine ⟨?_, by simp, by simp⟩
  unfold execute
  rw [if_pos h]

theorem execute_whitespace_returns_python_none_witness :
    trimL (str "  ") = [] ∧
    (execute st0 (str "  ") = .ok (none, st0) ∧ (none : Option Str) ≠ some [] ∧
      (none : Option Str) ≠ some (str "exit")) :=
  ⟨by decide, execute_whitespace_returns_python_none st0 (str "  ") (by decide)⟩

/-- C5 counterexample: the redirect target is not the text after the
first `>`: for `echo a > b > c` the code splits on every occurrence and
writes to `/b` (field 1 of the split), not to the first-occurrence
remainder `b > c`. -/
theorem echo_redirect_splits_on_every_occurrence_cex :
    execResult st0 (str "echo a > b > c") =
      .ok (some (str "Text written to '/b' successfully")) ∧
    lookupFile (afterExec st0 (str "echo a > b > c")).fs (str "/b") = some (str "a\n") ∧
    lookupFile (afterExec st0 (str "echo a > b > c")).fs (str "/b > c") = none := by decide

/-- C5 (amended): when the joined echo text contains `>`, the line is
split on every occurrence of the separator (`>>` when present, else
`>`): the content part is the text before the first occurrence and the
target part is the text between the first and second occurrences (the
whole remainder when the separator occurs only once); the stripped
content plus a trailing newline is written to the normalized stripped
target.  Without `>`, the joined text is returned verbatim. -/
theorem cmd_echo_split_decomposition (st : St) (args : List Str) :
    (isSubstr (str ">") (joinSep (str " ") args) = false →
      cmd_echo st args = .ok (joinSep (str " ") args, st)) ∧
    (isSubstr (str ">>") (joinSep (str " ") args) = true →
      cmd_echo st args = echoRedirect st true
        (beforeFirst (str ">>") (joinSep (str " ") args))
        (beforeFirst (str ">>") (afterFirst (str ">>") (joinSep (str " ") args)))) ∧
    (isSubstr (str ">") (joinSep (str " ") args) = true →
      isSubstr (str ">>") (joinSep (str " ") args) = false →
      cmd_echo st args = echoRedirect st false
        (beforeFirst (str ">") (joinSep (str " ") args))
        (beforeFirst (str ">") (afterFirst (str ">") (joinSep (str " ") args)))) := by
  refine ⟨?_, ?_, ?_⟩
  · intro h
    simp only [cmd_echo]
    rw [if_neg (by simp [h])]
  · intro h
    have h1 := isSubstr_gt_of_gtgt _ h
    simp only [cmd_echo]
    rw [if_pos h1, if_pos h, splitGtGt_zero, splitGtGt_one _ h]
  · intro h h2
    simp only [cmd_echo]
    rw [if_pos h, if_neg (by simp [h2]), splitGt_zero, splitGt_one _ h]

theorem cmd_echo_split_decomposition_witness :
    isSubstr (str ">") (joinSep (str " ") [str "hello", str ">", str "out.txt"]) = true ∧
    isSubstr (str ">>") (joinSep (str " ") [str "hello", str ">", str "out.txt"]) = false ∧
    cmd_echo st0 [str "hello", str ">", str "out.txt"] = echoRedirect st0 false
      (beforeFirst (str ">") (joinSep (str " ") [str "hello", str ">", str "out.txt"]))
      (beforeFirst (str ">")
        (afterFirst (str ">") (joinSep (str " ") [str "hello", str ">", str "out.txt"]))) ∧
    isSubstr (str ">>") (joinSep (str " ") [str "w", str ">>", str "o.txt"]) = true ∧
    cmd_echo st0 [str "w", str ">>", str "o.txt"] = echoRedirect st0 true
      (beforeFirst (str ">>") (joinSep (str " ") [str "w", str ">>", str "o.txt"]))
      (beforeFirst (str ">>")
        (afterFirst (str ">>") (joinSep (str " ") [str "w", str ">>", str "o.txt"]))) :=
  ⟨by decide, by decide,
    (cmd_echo_split_decomposition st0 [str "hello", str ">", str "out.txt"]).2.2
      (by decide) (by decide),
    by decide,
    (cmd_echo_split_decomposition st0 [str "w", str ">>", str "o.txt"]).2.1 (by decide)⟩

/-- C6 counterexample: after `history -c`, a subsequent `history`
execution does not return empty text: it returns the timestamped entry
recording the `history` command itself (history is saved before
dispatch). -/
theorem history_after_clear_not_empty_cex :
    execResult (afterExec st0 (str "history -c")) (str "history") ≠ .ok (some []) ∧
    execResult (afterExec st0 (str "history -c")) (str "history") =
      .ok (some (str "[2025-01-01 00:00:00] history")) := by decide

/-- C6 (amended): `history -c` empties both the in-memory history log
and the durable sink, but a subsequent `history` execution returns
exactly one line: the timestamped record of that `history` command
itself, because `execute` logs every non-empty command before
dispatching it. -/
theorem history_clear_then_history_shows_self (st : St) :
    execResult st (str "history -c") = .ok (some (str "History cleared")) ∧
    (afterExec st (str "history -c")).history = [] ∧
    (afterExec st (str "history -c")).histFile = [] ∧
    execResult (afterExec st (str "history -c")) (str "history") =
      .ok (some (str "[" ++ st.now ++ str "] " ++ str "history")) :=
  ⟨rfl, rfl, rfl, rfl⟩

/-- C7: phrase translation is idempotent on its own output — for every
input string, translating the translated result yields it again — and
already-canonical input such as `mkdir foo` translates to itself. -/
theorem parse_nlp_idempotent :
    (∀ s, parse_nlp (parse_nlp s) = parse_nlp s) ∧
    parse_nlp (str "mkdir foo") = str "mkdir foo" := by
  constructor
  · intro s
    cases h : tryPatterns (trimL (lowerL s)) with
    | none =>
      have e : parse_nlp s = s := by unfold parse_nlp; rw [h]
      rw [e]
      exact e
    | some out =>
      have e : parse_nlp s = out := by unfold parse_nlp; rw [h]
      rw [e]
      exact (tryPatterns_inv (hlow_of s) h).1
  · decide

/-- C8: `cd` to a path that is not an existing directory leaves the
whole state (in particular the working directory) unchanged and returns
an error message mentioning the normalized path; the directory change
happens only when both the existence and directory checks pass. -/
theorem cmd_cd_checks_then_changes (st : St) (p : Str) :
    (isDirF st.fs (normalize_path st p) = false →
      ∃ msg, cmd_cd st [p] = .ok (msg, st) ∧
        isSubstr (normalize_path st p) msg = true) ∧
    (isDirF st.fs (normalize_path st p) = true →
      cmd_cd st [p] = .ok (str "Changed directory to '" ++ normalize_path st p ++ str "'",
        { st with cwd := normalize_path st p })) := by
  constructor
  · intro hdir
    by_cases hf : isFileF st.fs (normalize_path st p) = true
    · have hex : existsF st.fs (normalize_path st p) = true := by
        simp [existsF, hdir, hf]
      refine ⟨str "cd: '" ++ normalize_path st p ++ str "' is not a directory", ?_,
        isSubstr_of_parts _ _ _⟩
      simp only [cmd_cd]
      rw [if_neg (by simp [hex]), if_pos (by simp [hdir])]
    · have hf' : isFileF st.fs (normalize_path st p) = false := by
        simpa using hf
      have hex : existsF st.fs (normalize_path st p) = false := by
        simp [existsF, hdir, hf']
      refine ⟨str "cd: '" ++ normalize_path st p ++ str "' does not exist", ?_,
        isSubstr_of_parts _ _ _⟩
      simp only [cmd_cd]
      rw [if_pos (by simp [hex])]
  · intro hdir
    have hex : existsF st.fs (normalize_path st p) = true := by
      simp [existsF, hdir]
    simp only [cmd_cd]
    rw [if_neg (by simp [hex]), if_neg (by simp [hdir])]

theorem cmd_cd_checks_then_changes_witness :
    isDirF st0.fs (normalize_path st0 (str "nope")) = false ∧
    (∃ msg, cmd_cd st0 [str "nope"] = .ok (msg, st0) ∧
      isSubstr (normalize_path st0 (str "nope")) msg = true) ∧
    isDirF st0.fs (normalize_path st0 (str "/")) = true ∧
    cmd_cd st0 [str "/"] = .ok
      (str "Changed directory to '" ++ normalize_path st0 (str "/") ++ str "'",
        { st0 with cwd := normalize_path st0 (str "/") }) :=
  ⟨by decide, (cmd_cd_checks_then_changes st0 (str "nope")).1 (by decide),
    by decide, (cmd_cd_checks_then_changes st0 (str "/")).2 (by decide)⟩

/-- C9: captured argument tokens come from the lowercased trimmed copy
of the input, so file names in the canonical command are fully
lowercased: `create file <token>` translates to `touch` applied to the
lowercased token. -/
theorem parse_nlp_groups_lowercased (w : Str) (h1 : w ≠ [])
    (h2 : ∀ c ∈ w, pyIsSpace c = false) :
    parse_nlp (str "create file " ++ w) = str "touch " ++ lowerL w := by
  have hlw1 : lowerL w ≠ [] := lowerL_ne_nil h1
  have hlw2 := lowerL_nonspace h2
  have hlower : lowerL (str "create file " ++ w) = str "create file " ++ lowerL w := by
    rw [lowerL_append, show lowerL (str "create file ") = str "create file " from by decide]
  have htrim : trimL (str "create file " ++ lowerL w) = str "create file " ++ lowerL w := by
    apply trimL_eq_self
    · exact head_cons_nonspace (by decide)
    · intro c hc
      rw [getLast?_append_ne hlw1] at hc
      exact hlw2 c (List.mem_of_mem_getLast? hc)
  have hm := m1_matches (str "create file ") (lowerL w) [] hlw1 hlw2 (Or.inl rfl)
  rw [List.append_nil] at hm
  unfold parse_nlp
  rw [hlower, htrim, tryPatterns_create_file hm]

theorem parse_nlp_groups_lowercased_witness :
    (str "README.TXT" ≠ []) ∧
    parse_nlp (str "create file README.TXT") = str "touch readme.txt" := by
  refine ⟨by decide, ?_⟩
  have h := parse_nlp_groups_lowercased (str "README.TXT") (by decide) (by decide)
  rw [show lowerL (str "README.TXT") = str "readme.txt" from by decide] at h
  exact h

/-- C10: pattern matching is anchored at the start only and the rewrite
drops any trailing unmatched text: every input beginning with `help`
translates to exactly `help`, and `create file <token> <anything>`
translates to `touch` applied to the lowercased token, the trailing text
discarded. -/
theorem parse_nlp_anchored_drops_tail :
    (∀ rest : Str, parse_nlp (str "help" ++ rest) = str "help") ∧
    (∀ w r : Str, w ≠ [] → (∀ c ∈ w, pyIsSpace c = false) →
      parse_nlp (str "create file " ++ w ++ str " " ++ r) = str "touch " ++ lowerL w) := by
  constructor
  · intro rest
    have hlower : lowerL (str "help" ++ rest) = str "help" ++ lowerL rest := by
      rw [lowerL_append, show lowerL (str "help") = str "help" from by decide]
    obtain ⟨y, hy⟩ := @trimL_append_of (str "help") (lowerL rest) (by decide) (by decide)
    unfold parse_nlp
    rw [hlower, hy, tryPatterns_help]
  · intro w r hw1 hw2
    have hlw1 : lowerL w ≠ [] := lowerL_ne_nil hw1
    have hlw2 := lowerL_nonspace hw2
    have hlower : lowerL (str "create file " ++ w ++ str " " ++ r) =
        str "create file " ++ lowerL w ++ str " " ++ lowerL r := by
      rw [lowerL_append, lowerL_append, lowerL_append,
        show lowerL (str "create file ") = str "create file " from by decide,
        show lowerL (str " ") = str " " from by decide]
    have hA : str "create file " ++ lowerL w ++ str " " ++ lowerL r =
        (str "create file " ++ lowerL w) ++ ' ' :: lowerL r := by
      rw [List.append_assoc]
      rfl
    have hAne : str "create file " ++ lowerL w ≠ [] := fun hh =>
      List.cons_ne_nil _ _ hh
    have hAhead : ∀ c, (str "create file " ++ lowerL w).head? = some c →
        pyIsSpace c = false := head_cons_nonspace (by decide)
    have hAlast : ∀ c, (str "create file " ++ lowerL w).getLast? = some c →
        pyIsSpace c = false := by
      intro c hc
      rw [getLast?_append_ne hlw1] at hc
      exact hlw2 c (List.mem_of_mem_getLast? hc)
    rcases trimL_append_space (lowerL r) hAne hAhead hAlast with htr | ⟨z, htr⟩
    · have hm := m1_matches (str "create file ") (lowerL w) [] hlw1 hlw2 (Or.inl rfl)
      rw [List.append_nil] at hm
      unfold parse_nlp
      rw [hlower, hA, htr, tryPatterns_create_file hm]
    · have hm := m1_matches (str "create file ") (lowerL w) (' ' :: z) hlw1 hlw2
        (Or.inr ⟨z, rfl⟩)
      unfold parse_nlp
      rw [hlower, hA, htr]
      rw [show (str "create file " ++ lowerL w) ++ ' ' :: z =
        str "create file " ++ (lowerL w ++ ' ' :: z) from by rw [List.append_assoc]]
      rw [tryPatterns_create_file hm]

theorem parse_nlp_anchored_drops_tail_witness :
    parse_nlp (str "help me") = str "help" ∧
    (str "a.txt" ≠ []) ∧
    parse_nlp (str "create file a.txt please") = str "touch a.txt" := by
  refine ⟨?_, by decide, ?_⟩
  · exact parse_nlp_anchored_drops_tail.1 (str " me")
  · have h := parse_nlp_anchored_drops_tail.2 (str "a.txt") (str "please")
      (by decide) (by decide)
    rw [show lowerL (str "a.txt") = str "a.txt" from by decide] at h
    exact h
